import Mathlib

/-!
Verification of the Don trading framework's risk engine against its
documented implementation: position sizing (`adjust_position_size`),
risk metrics (VaR / expected shortfall / drawdown analysis / Sortino),
market-regime detection (`analyze_volatility`) and statistical-arbitrage
signal generation, embedded over exact rational and real arithmetic.
-/

open scoped Classical

namespace Don

/-- Risk metrics snapshot consumed by position sizing
(`RiskMetrics` in docs/guides/transfer-learning.md). -/
structure RiskMetrics where
  var : ℚ
  es : ℚ
  volatility : ℚ
  drawdown : ℚ
  sharpe_ratio : ℚ
  model_confidence : ℚ

/-- `vol_factor = min(1.0, target_vol / metrics.volatility)` from
`adjust_position_size` in docs/guides/transfer-learning.md. -/
def vol_factor (target_vol volatility : ℚ) : ℚ :=
  min 1 (target_vol / volatility)

/-- `dd_factor = 1.0 - (metrics.drawdown / max_drawdown)` from
`adjust_position_size` in docs/guides/transfer-learning.md. -/
def dd_factor (drawdown max_drawdown : ℚ) : ℚ :=
  1 - drawdown / max_drawdown

/-- `conf_factor = max(0.0, (metrics.model_confidence - min_confidence) /
(1.0 - min_confidence))` from `adjust_position_size` in
docs/guides/transfer-learning.md. -/
def conf_factor (model_confidence min_confidence : ℚ) : ℚ :=
  max 0 ((model_confidence - min_confidence) / (1 - min_confidence))

/-- `adjust_position_size(base_size, metrics)` from
docs/guides/transfer-learning.md: returns
`base_size * vol_factor * dd_factor * conf_factor`.  The module-level
parameters `target_vol`, `max_drawdown`, `min_confidence` are passed
explicitly. -/
def adjust_position_size (base_size : ℚ) (metrics : RiskMetrics)
    (target_vol max_drawdown min_confidence : ℚ) : ℚ :=
  base_size * vol_factor target_vol metrics.volatility
    * dd_factor metrics.drawdown max_drawdown
    * conf_factor metrics.model_confidence min_confidence

/-- `np.mean` of a rational sample, with NaN on the empty sample modelled
as `none`. -/
def npMean (xs : List ℚ) : Option ℚ :=
  if xs = [] then none else some (xs.sum / xs.length)

/-- `np.percentile(xs, q)` with the default linear interpolation: the value
at virtual index `q/100 * (n-1)` of the sorted sample, interpolating
between adjacent order statistics. -/
def percentile (xs : List ℚ) (q : ℚ) : ℚ :=
  let s := List.insertionSort (· ≤ ·) xs
  let idx : ℚ := q * ((s.length : ℚ) - 1) / 100
  let i : ℕ := (⌊idx⌋).toNat
  if i + 1 < s.length then
    s.getD i 0 + (idx - (i : ℚ)) * (s.getD (i + 1) 0 - s.getD i 0)
  else
    s.getD i 0

/-- `calculate_var` from docs/guides/transfer-learning.md:
`-np.percentile(returns, (1 - confidence_level) * 100)`. -/
def calculate_var (returns : List ℚ) (confidence_level : ℚ) : ℚ :=
  -percentile returns ((1 - confidence_level) * 100)

/-- `calculate_es` from docs/guides/transfer-learning.md:
`-np.mean(returns[returns < -var])`; `none` models the NaN produced by the
mean over an empty selection. -/
def calculate_es (returns : List ℚ) (var : ℚ) : Option ℚ :=
  (npMean (returns.filter (fun r => r < -var))).map (fun m => -m)

/-- Result dictionary of `calculate_risk_metrics` from
docs/guides/enhanced-evaluation.md. -/
structure CrmMetrics where
  var : ℚ
  es : Option ℚ

/-- `calculate_risk_metrics` from docs/guides/enhanced-evaluation.md:
`metrics['var'] = np.percentile(returns, (1-confidence_level)*100)` (not
negated) and `metrics['es'] = returns[returns <= metrics['var']].mean()`. -/
def calculate_risk_metrics (returns : List ℚ) (confidence_level : ℚ) :
    CrmMetrics :=
  let v := percentile returns ((1 - confidence_level) * 100)
  { var := v, es := npMean (returns.filter (fun r => r ≤ v)) }

/-- Total arithmetic mean used inside variance computations (`np.mean`). -/
def qmean (xs : List ℚ) : ℚ := xs.sum / xs.length

/-- Population variance, the square of `np.std` (default `ddof=0`). -/
def qvariance (xs : List ℚ) : ℚ := qmean (xs.map (fun x => (x - qmean xs) ^ 2))

/-- `np.std` (population standard deviation, `ddof=0`). -/
noncomputable def npStd (xs : List ℚ) : ℝ := Real.sqrt ((qvariance xs : ℚ) : ℝ)

/-- Trailing window `xs[-n:]` of a sample. -/
def lastN (n : ℕ) (xs : List ℚ) : List ℚ := xs.drop (xs.length - n)

/-- `analyze_volatility` from docs/guides/transfer-learning.md: the trailing
standard deviation `np.std(returns[-window:])` is compared against the
fixed multiples `historical_vol * 1.5` and `historical_vol * 0.5`. -/
noncomputable def analyze_volatility (returns : List ℚ) (historical_vol : ℚ)
    (window : ℕ) : String :=
  if npStd (lastN window returns) > (historical_vol : ℝ) * 1.5 then
    "high_volatility"
  else if npStd (lastN window returns) < (historical_vol : ℝ) * 0.5 then
    "low_volatility"
  else "medium_volatility"

/-- Modelled from the spec (for comparison with `analyze_volatility`, whose
code uses fixed multipliers instead): bucket the trailing standard
deviation against the 33rd/66th percentiles of a historical reference
distribution of volatility supplied at construction. -/
noncomputable def specVolatilityTier (returns : List ℚ)
    (historical_vols : List ℚ) (window : ℕ) : String :=
  if npStd (lastN window returns) < ((percentile historical_vols 33 : ℚ) : ℝ) then
    "low_volatility"
  else if npStd (lastN window returns) > ((percentile historical_vols 66 : ℚ) : ℝ) then
    "high_volatility"
  else "medium_volatility"

/-- The `sortino_ratio` entry of `analyze_risk_adjusted_returns` from
docs/guides/enhanced-evaluation.md:
`excess_returns.mean() / downside_returns.std() * np.sqrt(252)` where
`downside_returns = returns[returns < 0]`; `none` models the NaN produced
by `np.std` of an empty downside subset. -/
noncomputable def sortino_ratio (returns : List ℚ) (risk_free_rate : ℚ) :
    Option ℝ :=
  if returns.filter (fun r => r < 0) = [] then none
  else
    some (((qmean (returns.map (fun r => r - risk_free_rate)) : ℚ) : ℝ) /
      npStd (returns.filter (fun r => r < 0)) * Real.sqrt 252)

/-- `cumulative_returns = np.cumprod(1 + returns)` from `analyze_drawdowns`
in docs/guides/enhanced-evaluation.md. -/
def cumulative_returns (returns : List ℚ) : List ℚ :=
  (returns.scanl (fun acc r => acc * (1 + r)) 1).tail

/-- `rolling_max = np.maximum.accumulate(cumulative_returns)`. -/
def rolling_max : List ℚ → List ℚ
  | [] => []
  | x :: rest => rest.scanl max x

/-- `drawdowns = (cumulative_returns - rolling_max) / rolling_max` from
`analyze_drawdowns` in docs/guides/enhanced-evaluation.md. -/
def drawdown_curve (returns : List ℚ) : List ℚ :=
  List.zipWith (fun c m => (c - m) / m) (cumulative_returns returns)
    (rolling_max (cumulative_returns returns))

/-- Result dictionary of `analyze_drawdowns` (the duration entry is
omitted; it is not involved in any claim). -/
structure DrawdownStats where
  max_drawdown : Option ℚ
  avg_drawdown : Option ℚ

/-- `analyze_drawdowns` from docs/guides/enhanced-evaluation.md:
`max_drawdown = drawdowns.min()` and `avg_drawdown = drawdowns.mean()`
(the mean of the whole curve). -/
def analyze_drawdowns (returns : List ℚ) : DrawdownStats :=
  { max_drawdown := (drawdown_curve returns).min?
  , avg_drawdown := npMean (drawdown_curve returns) }

/-- Pair analysis record consumed by `generate_pairs_signal`
(src/unnamed/part_006, statistical arbitrage section). -/
structure PairAnalysis where
  asset_a : String
  asset_b : String
  hedge_ratio : ℚ
  zscore : ℚ

/-- Signal kinds of the statistical-arbitrage module. -/
inductive StatArbType
  | pairs_trading
  | mean_reversion

/-- `np.sign`. -/
noncomputable def npSign (x : ℝ) : ℝ :=
  if 0 < x then 1 else if x < 0 then -1 else 0

/-- `TradingSignal` record emitted by the statistical-arbitrage signal
generators (the `type` field is named `sigType` here). -/
structure TradingSignal where
  sigType : StatArbType
  assets : List String
  direction : List ℝ
  confidence : ℝ

/-- `generate_pairs_signal` from src/unnamed/part_006: emits a signal only
when `|pair.zscore| > zscore_threshold`, with
`confidence = min(|zscore| / zscore_threshold, 1.0)`. -/
noncomputable def generate_pairs_signal (pair : PairAnalysis)
    (zscore_threshold : ℚ) : Option TradingSignal :=
  if |pair.zscore| > zscore_threshold then
    some { sigType := StatArbType.pairs_trading
         , assets := [pair.asset_a, pair.asset_b]
         , direction := [-npSign ((pair.zscore : ℚ) : ℝ),
             npSign ((pair.zscore : ℚ) : ℝ) * ((pair.hedge_ratio : ℚ) : ℝ)]
         , confidence :=
             min (((|pair.zscore| : ℚ) : ℝ) / ((zscore_threshold : ℚ) : ℝ)) 1 }
  else none

/-- Sample variance with `ddof = 1`, the square of the pandas rolling
`.std()`. -/
def sampleVariance (xs : List ℚ) : ℚ :=
  (xs.map (fun x => (x - qmean xs) ^ 2)).sum / ((xs.length : ℚ) - 1)

/-- The last entry of the rolling z-score series
`(prices - prices.rolling(lookback).mean()) / prices.rolling(lookback).std()`
used by `generate_mean_reversion_signal`. -/
noncomputable def rolling_zscore_last (prices : List ℚ) (lookback : ℕ) : ℝ :=
  ((prices.getLast?.getD 0 - qmean (lastN lookback prices) : ℚ) : ℝ) /
    Real.sqrt ((sampleVariance (lastN lookback prices) : ℚ) : ℝ)

/-- `generate_mean_reversion_signal` from src/unnamed/part_006: `none` when
the rolling window is underfull (the z-score is NaN) or the last z-score
does not exceed the threshold in magnitude; otherwise a signal with
`confidence = min(|zscore| / zscore_threshold, 1.0)`. -/
noncomputable def generate_mean_reversion_signal (name : String)
    (prices : List ℚ) (lookback : ℕ) (zscore_threshold : ℚ) :
    Option TradingSignal :=
  if prices.length < lookback then none
  else if |rolling_zscore_last prices lookback| > ((zscore_threshold : ℚ) : ℝ) then
    some { sigType := StatArbType.mean_reversion
         , assets := [name]
         , direction := [-npSign (rolling_zscore_last prices lookback)]
         , confidence := min (|rolling_zscore_last prices lookback| /
             ((zscore_threshold : ℚ) : ℝ)) 1 }
  else none

end Don

namespace Don

/-- C1: the spec claims the drawdown scaling factor is
`max(0.0, 1.0 - metrics.drawdown / drawdown_limit)`, floored at zero.  The
code computes `1.0 - metrics.drawdown / max_drawdown` with no floor: at
drawdown 2/5 and limit 1/5 the code factor is -1 while the claimed floored
factor is 0, and the final position size is -1 (negative-scaled). -/
theorem dd_factor_not_floored_counterexample :
    dd_factor (2/5) (1/5) = -1 ∧
    max 0 (1 - (2/5 : ℚ) / (1/5)) = 0 ∧
    dd_factor (2/5) (1/5) ≠ max 0 (1 - (2/5 : ℚ) / (1/5)) ∧
    adjust_position_size 1 ⟨0, 0, 1, 2/5, 0, 1⟩ 1 (1/5) 0 = -1 := by
  refine ⟨?_, ?_, ?_, ?_⟩ <;>
    norm_num [dd_factor, adjust_position_size, vol_factor, conf_factor,
      min_def, max_def]

/-- C1 (amended): `dd_factor = 1 - drawdown / max_drawdown` with no
`max(0, ·)` floor, so it can go negative past the limit; still, when
`metrics.drawdown` equals the (nonzero) drawdown limit exactly, the factor is
0 and `adjust_position_size` returns 0 regardless of the other inputs. -/
theorem adjust_position_size_zero_at_drawdown_limit
    (base_size target_vol min_confidence max_drawdown : ℚ) (m : RiskMetrics)
    (hmdd : max_drawdown ≠ 0) (hd : m.drawdown = max_drawdown) :
    adjust_position_size base_size m target_vol max_drawdown min_confidence = 0 := by
  unfold adjust_position_size dd_factor
  rw [hd, div_self hmdd]
  ring

/-- C1 witness: at drawdown = limit = 1/5 the returned size is 0. -/
theorem adjust_position_size_zero_at_drawdown_limit_witness :
    adjust_position_size 1 ⟨0, 0, 1, 1/5, 0, 1⟩ 1 (1/5) 0 = 0 :=
  adjust_position_size_zero_at_drawdown_limit 1 1 0 (1/5) ⟨0, 0, 1, 1/5, 0, 1⟩
    (by norm_num) rfl

/-- C2: whenever `metrics.model_confidence < min_confidence` (with the
confidence floor below 1), the confidence factor
`max(0, (confidence - min_confidence)/(1 - min_confidence))` is 0 and
`adjust_position_size` returns exactly 0, for every prediction (base size)
and every other metric value. -/
theorem adjust_position_size_zero_below_min_confidence
    (base_size target_vol max_drawdown min_confidence : ℚ) (m : RiskMetrics)
    (hc : m.model_confidence < min_confidence) (h1 : min_confidence < 1) :
    adjust_position_size base_size m target_vol max_drawdown min_confidence = 0 := by
  unfold adjust_position_size conf_factor
  have hnum : m.model_confidence - min_confidence < 0 := by linarith
  have hden : (0 : ℚ) < 1 - min_confidence := by linarith
  have hquot : (m.model_confidence - min_confidence) / (1 - min_confidence) < 0 :=
    div_neg_of_neg_of_pos hnum hden
  rw [max_eq_left hquot.le, mul_zero]

/-- C2 witness: confidence 1/4 below the floor 1/2 yields size 0. -/
theorem adjust_position_size_zero_below_min_confidence_witness :
    adjust_position_size 1 ⟨0, 0, 1, 0, 0, 1/4⟩ 1 1 (1/2) = 0 :=
  adjust_position_size_zero_below_min_confidence 1 1 1 (1/2) ⟨0, 0, 1, 0, 0, 1/4⟩
    (by norm_num) (by norm_num)

/-- C6: with all other inputs fixed, a (weakly) higher positive volatility
never increases the magnitude of the position size returned by
`adjust_position_size` (the volatility factor `min(1, target/vol)` is
antitone in volatility and nonnegative for nonnegative targets). -/
theorem adjust_position_size_abs_antitone_in_volatility
    (base_size target_vol max_drawdown min_confidence : ℚ) (m m' : RiskMetrics)
    (hv : 0 < m.volatility) (hvv : m.volatility ≤ m'.volatility)
    (htv : 0 ≤ target_vol)
    (hd : m'.drawdown = m.drawdown)
    (hc : m'.model_confidence = m.model_confidence) :
    |adjust_position_size base_size m' target_vol max_drawdown min_confidence| ≤
      |adjust_position_size base_size m target_vol max_drawdown min_confidence| := by
  have hv' : 0 < m'.volatility := lt_of_lt_of_le hv hvv
  have hmono : target_vol / m'.volatility ≤ target_vol / m.volatility := by
    rw [div_eq_mul_inv, div_eq_mul_inv]
    exact mul_le_mul_of_nonneg_left (inv_anti₀ hv hvv) htv
  have hf : vol_factor target_vol m'.volatility ≤ vol_factor target_vol m.volatility :=
    min_le_min le_rfl hmono
  have hf0 : 0 ≤ vol_factor target_vol m'.volatility :=
    le_min (by norm_num) (div_nonneg htv hv'.le)
  have hf0' : 0 ≤ vol_factor target_vol m.volatility :=
    le_min (by norm_num) (div_nonneg htv hv.le)
  unfold adjust_position_size
  rw [hd, hc]
  simp only [abs_mul]
  rw [abs_of_nonneg hf0, abs_of_nonneg hf0']
  gcongr

/-- C6 witness: doubling volatility from 1 to 2 halves the size magnitude. -/
theorem adjust_position_size_abs_antitone_in_volatility_witness :
    |adjust_position_size 1 ⟨0, 0, 2, 0, 0, 1⟩ 1 1 0| ≤
      |adjust_position_size 1 ⟨0, 0, 1, 0, 0, 1⟩ 1 1 0| :=
  adjust_position_size_abs_antitone_in_volatility 1 1 1 0
    ⟨0, 0, 1, 0, 0, 1⟩ ⟨0, 0, 2, 0, 0, 1⟩
    (by norm_num) (by norm_num) (by norm_num) rfl rfl

/-- C3: the spec claims that on returns
`[0.01, -0.02, 0.015, -0.01, 0.005]` at confidence level 0.8 the VaR is
the sample minimum -0.02.  `np.percentile` linearly interpolates: the 20th
percentile of the 5 sorted points sits at virtual index 0.8, between the
two lowest order statistics, giving -0.012, not -0.02. -/
theorem risk_metrics_scenario1_counterexample :
    (calculate_risk_metrics [1/100, -1/50, 3/200, -1/100, 1/200] (4/5)).var ≠
      -1/50 := by
  norm_num [calculate_risk_metrics, percentile, List.insertionSort,
    List.orderedInsert, npMean, List.filter]

/-- C3 (amended): on returns `[0.01, -0.02, 0.015, -0.01, 0.005]` at
confidence level 0.8 the computation yields VaR = -0.012 (the linearly
interpolated 20th percentile, not the minimum) and ES = -0.02 (the mean of
the returns at or below the VaR threshold, which is just -0.02). -/
theorem risk_metrics_scenario1 :
    calculate_risk_metrics [1/100, -1/50, 3/200, -1/100, 1/200] (4/5) =
      ⟨-3/250, some (-1/50)⟩ := by
  norm_num [calculate_risk_metrics, percentile, List.insertionSort,
    List.orderedInsert, npMean, List.filter]

/-- C5: the spec claims every VaR implementation in the engine returns the
negated `(1-confidence_level)*100` percentile.  The
`calculate_risk_metrics` implementation stores the raw percentile without
negation: on the scenario-1 returns it yields -0.012 whereas the negated
percentile is +0.012. -/
theorem crm_var_not_negated_counterexample :
    (calculate_risk_metrics [1/100, -1/50, 3/200, -1/100, 1/200] (4/5)).var ≠
      -percentile [1/100, -1/50, 3/200, -1/100, 1/200]
        ((1 - 4/5) * 100) := by
  norm_num [calculate_risk_metrics, percentile, List.insertionSort,
    List.orderedInsert]

/-- C5 (amended): `calculate_var` (transfer-learning guide) returns the
negated empirical percentile, while `calculate_risk_metrics`
(enhanced-evaluation guide) stores the raw percentile; the two
implementations differ exactly by sign on every input. -/
theorem calculate_var_neg_of_crm_var (returns : List ℚ)
    (confidence_level : ℚ) :
    calculate_var returns confidence_level =
      -((calculate_risk_metrics returns confidence_level).var) := rfl

/-- C4: the spec claims ES is the mean of returns at or below the VaR
threshold and is a defined value (equal to VaR) even when no return falls
below VaR.  The `calculate_es` implementation filters with a strict
inequality, so on the constant series `[1, 1]` (where VaR makes the
selection empty) it takes the mean of an empty array: NaN, not VaR. -/
theorem calculate_es_nan_counterexample :
    calculate_es [1, 1] (calculate_var [1, 1] (19/20)) = none := by
  norm_num [calculate_es, calculate_var, percentile, List.insertionSort,
    List.orderedInsert, npMean, List.filter]

/-- A sorted list is monotone in its (defaulted) positional accessor. -/
theorem sorted_getD_mono {s : List ℚ} (hsort : s.Sorted (· ≤ ·)) {a b : ℕ}
    (hab : a ≤ b) (hb : b < s.length) : s.getD a 0 ≤ s.getD b 0 := by
  have ha : a < s.length := lt_of_le_of_lt hab hb
  rw [List.getD_eq_getElem s 0 ha, List.getD_eq_getElem s 0 hb]
  have h := @List.Sorted.rel_get_of_le ℚ (· ≤ ·) _ s hsort ⟨a, ha⟩ ⟨b, hb⟩
    (Fin.mk_le_mk.mpr hab)
  simpa using h

/-- The linear interpolation step of `np.percentile` never goes below the
head of the sorted sample. -/
theorem interp_lower_bound (s : List ℚ) (hsort : s.Sorted (· ≤ ·)) (idx : ℚ)
    (h0 : 0 ≤ idx) (h1 : idx ≤ (s.length : ℚ) - 1) :
    s.getD 0 0 ≤
      (if (⌊idx⌋).toNat + 1 < s.length then
        s.getD (⌊idx⌋).toNat 0 + (idx - (((⌊idx⌋).toNat : ℕ) : ℚ)) *
          (s.getD ((⌊idx⌋).toNat + 1) 0 - s.getD (⌊idx⌋).toNat 0)
      else s.getD (⌊idx⌋).toNat 0) := by
  have hfloor0 : 0 ≤ ⌊idx⌋ := Int.floor_nonneg.2 h0
  have hic : (((⌊idx⌋).toNat : ℕ) : ℚ) = ((⌊idx⌋ : ℤ) : ℚ) := by
    exact_mod_cast congrArg (fun z : ℤ => (z : ℚ)) (Int.toNat_of_nonneg hfloor0)
  have hile : (((⌊idx⌋).toNat : ℕ) : ℚ) ≤ idx := by
    rw [hic]; exact Int.floor_le idx
  split
  · rename_i hlt
    have hin : (⌊idx⌋).toNat < s.length := by omega
    have e0 : s.getD 0 0 ≤ s.getD (⌊idx⌋).toNat 0 :=
      sorted_getD_mono hsort (Nat.zero_le _) hin
    have e1 : s.getD (⌊idx⌋).toNat 0 ≤ s.getD ((⌊idx⌋).toNat + 1) 0 :=
      sorted_getD_mono hsort (Nat.le_succ _) hlt
    nlinarith [hile, e0, e1]
  · rename_i hge
    have hin : (⌊idx⌋).toNat < s.length := by
      by_contra hcon
      push_neg at hcon
      have : ((s.length : ℕ) : ℚ) ≤ (((⌊idx⌋).toNat : ℕ) : ℚ) := by
        exact_mod_cast hcon
      linarith [le_trans this hile]
    exact sorted_getD_mono hsort (Nat.zero_le _) hin

/-- The empirical percentile of a nonempty sample, for `0 ≤ q ≤ 100`, is at
least some member of the sample (its minimum). -/
theorem percentile_lower_bound (xs : List ℚ) (q : ℚ) (hxs : xs ≠ [])
    (hq0 : 0 ≤ q) (hq1 : q ≤ 100) :
    ∃ x ∈ xs, x ≤ percentile xs q := by
  have hsort := List.sorted_insertionSort (· ≤ ·) xs
  have hperm := List.perm_insertionSort (· ≤ ·) xs
  have hn : 0 < (List.insertionSort (· ≤ ·) xs).length := by
    rw [hperm.length_eq]; exact List.length_pos.2 hxs
  have hone : (1 : ℚ) ≤ ((List.insertionSort (· ≤ ·) xs).length : ℚ) := by
    exact_mod_cast hn
  refine ⟨(List.insertionSort (· ≤ ·) xs).getD 0 0, ?_, ?_⟩
  · refine hperm.mem_iff.1 ?_
    rw [List.getD_eq_getElem _ 0 hn]
    exact List.getElem_mem _
  · have h0 : 0 ≤ q * (((List.insertionSort (· ≤ ·) xs).length : ℚ) - 1) / 100 := by
      apply div_nonneg _ (by norm_num)
      apply mul_nonneg hq0
      linarith
    have h1 : q * (((List.insertionSort (· ≤ ·) xs).length : ℚ) - 1) / 100 ≤
        ((List.insertionSort (· ≤ ·) xs).length : ℚ) - 1 := by
      rw [div_le_iff₀ (by norm_num : (0:ℚ) < 100)]
      nlinarith
    simpa only [percentile] using
      interp_lower_bound (List.insertionSort (· ≤ ·) xs) hsort
        (q * (((List.insertionSort (· ≤ ·) xs).length : ℚ) - 1) / 100) h0 h1

/-- C4 (amended): in `calculate_risk_metrics` the selection
`returns[returns <= var]` always contains the sample minimum (the
percentile is bounded below by it), so the ES is always defined (`some`);
and in the degenerate case where no return falls below the VaR threshold
the ES equals the VaR.  The companion `calculate_es` implementation instead
filters strictly below the threshold and yields NaN on degenerate input. -/
theorem crm_es_defined_and_degenerate (returns : List ℚ)
    (confidence_level : ℚ) (hne : returns ≠ [])
    (h0 : 0 ≤ confidence_level) (h1 : confidence_level ≤ 1) :
    ∃ m, (calculate_risk_metrics returns confidence_level).es = some m ∧
      ((∀ r ∈ returns,
          (calculate_risk_metrics returns confidence_level).var ≤ r) →
        m = (calculate_risk_metrics returns confidence_level).var) := by
  have hq0 : (0:ℚ) ≤ (1 - confidence_level) * 100 := by nlinarith
  have hq1 : (1 - confidence_level) * 100 ≤ 100 := by nlinarith
  obtain ⟨x, hx_mem, hx_le⟩ :=
    percentile_lower_bound returns ((1 - confidence_level) * 100) hne hq0 hq1
  set v := percentile returns ((1 - confidence_level) * 100) with hv
  have hvar : (calculate_risk_metrics returns confidence_level).var = v := rfl
  have hes : (calculate_risk_metrics returns confidence_level).es =
      npMean (returns.filter (fun r => r ≤ v)) := rfl
  have hmemf : x ∈ returns.filter (fun r => r ≤ v) := by
    rw [List.mem_filter]
    exact ⟨hx_mem, by simpa using hx_le⟩
  have hfne : returns.filter (fun r => r ≤ v) ≠ [] := by
    intro hcontra
    rw [hcontra] at hmemf
    exact absurd hmemf (List.not_mem_nil x)
  refine ⟨(returns.filter (fun r => r ≤ v)).sum /
      ((returns.filter (fun r => r ≤ v)).length : ℚ), ?_, ?_⟩
  · rw [hes]; unfold npMean; rw [if_neg hfne]
  · intro hdeg
    rw [hvar]
    have hall : ∀ y ∈ returns.filter (fun r => r ≤ v), y = v := by
      intro y hy
      rw [List.mem_filter] at hy
      have h2 := hdeg y hy.1
      rw [hvar] at h2
      have h3 : y ≤ v := by simpa using hy.2
      linarith
    have hsum := List.sum_eq_card_nsmul _ v hall
    have hlenpos : 0 < (returns.filter (fun r => r ≤ v)).length :=
      List.length_pos.2 hfne
    have hlenne : ((returns.filter (fun r => r ≤ v)).length : ℚ) ≠ 0 := by
      exact_mod_cast Nat.pos_iff_ne_zero.1 hlenpos
    rw [hsum, nsmul_eq_mul]
    exact mul_div_cancel_left₀ v hlenne

/-- C4 witness: on the constant series `[2, 2]` (where no return falls
strictly below the VaR) the ES of `calculate_risk_metrics` is defined and
equals the VaR. -/
theorem crm_es_defined_and_degenerate_witness :
    ∃ m, (calculate_risk_metrics [2, 2] (1/2)).es = some m ∧
      ((∀ r ∈ ([2, 2] : List ℚ),
          (calculate_risk_metrics [2, 2] (1/2)).var ≤ r) →
        m = (calculate_risk_metrics [2, 2] (1/2)).var) :=
  crm_es_defined_and_degenerate [2, 2] (1/2) (by simp) (by norm_num)
    (by norm_num)

/-- C7: the spec claims the volatility tier is decided against the
33rd/66th percentiles of a historical volatility distribution.  The code
compares against the fixed multiples 0.5x/1.5x of a scalar
`historical_vol`: on the window `[0, 2]` (trailing std 1) with
`historical_vol = 1` the code answers medium, while the percentile rule
over the reference distribution `[0.1, 0.2, 0.3]` answers high. -/
theorem analyze_volatility_not_percentile_counterexample :
    analyze_volatility [0, 2] 1 20 = "medium_volatility" ∧
    specVolatilityTier [0, 2] [1/10, 1/5, 3/10] 20 = "high_volatility" ∧
    analyze_volatility [0, 2] 1 20 ≠
      specVolatilityTier [0, 2] [1/10, 1/5, 3/10] 20 := by
  have hstd : npStd (lastN 20 [0, 2]) = 1 := by
    have hv : qvariance (lastN 20 [0, 2]) = 1 := by
      norm_num [lastN, qvariance, qmean]
    rw [npStd, hv]
    norm_num
  have h33 : percentile [1/10, 1/5, 3/10] 33 = 83/500 := by
    norm_num [percentile, List.insertionSort, List.orderedInsert]
  have h66 : percentile [1/10, 1/5, 3/10] 66 = 29/125 := by
    norm_num [percentile, List.insertionSort, List.orderedInsert]
  have h1 : analyze_volatility [0, 2] 1 20 = "medium_volatility" := by
    rw [analyze_volatility, hstd]
    rw [if_neg (by norm_num), if_neg (by norm_num)]
  have h2 : specVolatilityTier [0, 2] [1/10, 1/5, 3/10] 20 = "high_volatility" := by
    rw [specVolatilityTier, hstd, h33, h66]
    rw [if_neg (by norm_num), if_pos (by norm_num)]
  refine ⟨h1, h2, ?_⟩
  rw [h1, h2]
  decide

/-- C7 (amended): the volatility tier is determined by the trailing
standard deviation of the last `window` returns compared against the fixed
multiplier cutoffs `1.5 * historical_vol` (high) and `0.5 * historical_vol`
(low), a scalar baseline rather than percentiles of a reference
distribution. -/
theorem analyze_volatility_multiplier_cutoffs (returns : List ℚ)
    (historical_vol : ℚ) (window : ℕ) :
    (analyze_volatility returns historical_vol window = "high_volatility" ↔
      npStd (lastN window returns) > (historical_vol : ℝ) * 1.5) ∧
    (analyze_volatility returns historical_vol window = "low_volatility" ↔
      ¬(npStd (lastN window returns) > (historical_vol : ℝ) * 1.5) ∧
        npStd (lastN window returns) < (historical_vol : ℝ) * 0.5) ∧
    (analyze_volatility returns historical_vol window = "medium_volatility" ↔
      ¬(npStd (lastN window returns) > (historical_vol : ℝ) * 1.5) ∧
        ¬(npStd (lastN window returns) < (historical_vol : ℝ) * 0.5)) := by
  unfold analyze_volatility
  by_cases hH : npStd (lastN window returns) > (historical_vol : ℝ) * 1.5
  · rw [if_pos hH]
    exact ⟨⟨fun _ => hH, fun _ => rfl⟩,
      ⟨fun h => absurd h (by decide), fun h => absurd hH h.1⟩,
      ⟨fun h => absurd h (by decide), fun h => absurd hH h.1⟩⟩
  · rw [if_neg hH]
    by_cases hL : npStd (lastN window returns) < (historical_vol : ℝ) * 0.5
    · rw [if_pos hL]
      exact ⟨⟨fun h => absurd h (by decide), fun h => absurd h hH⟩,
        ⟨fun _ => ⟨hH, hL⟩, fun _ => rfl⟩,
        ⟨fun h => absurd h (by decide), fun h => absurd hL h.2⟩⟩
    · rw [if_neg hL]
      exact ⟨⟨fun h => absurd h (by decide), fun h => absurd h hH⟩,
        ⟨fun h => absurd h (by decide), fun h => absurd h.2 hL⟩,
        ⟨fun _ => ⟨hH, hL⟩, fun _ => rfl⟩⟩

/-- C8: the spec claims the Sortino computation returns 0 or a defined
finite sentinel when there are zero downside observations.  The code
divides by `np.std` of the empty downside subset, producing NaN: on the
all-positive series `[0.1, 0.2]` the result is undefined. -/
theorem sortino_nan_counterexample : sortino_ratio [1/10, 1/5] 0 = none := by
  rw [sortino_ratio, if_pos (by norm_num [List.filter])]

/-- C8 (amended): the Sortino denominator is the standard deviation of the
negative-return subset whenever that subset is nonempty, and the result is
undefined (NaN, not a sentinel) exactly when there are zero downside
observations. -/
theorem sortino_ratio_downside_denominator (returns : List ℚ)
    (risk_free_rate : ℚ) :
    (sortino_ratio returns risk_free_rate = none ↔
      returns.filter (fun r => r < 0) = []) ∧
    (returns.filter (fun r => r < 0) ≠ [] →
      sortino_ratio returns risk_free_rate =
        some (((qmean (returns.map (fun r => r - risk_free_rate)) : ℚ) : ℝ) /
          npStd (returns.filter (fun r => r < 0)) * Real.sqrt 252)) := by
  constructor
  · unfold sortino_ratio
    split
    · rename_i h; exact ⟨fun _ => h, fun _ => rfl⟩
    · rename_i h
      exact ⟨fun hc => absurd hc (Option.some_ne_none _), fun hc => absurd hc h⟩
  · intro h
    unfold sortino_ratio
    rw [if_neg h]

/-- C8 witness: a series with two downside observations gets the
downside-only standard deviation as its denominator. -/
theorem sortino_ratio_downside_denominator_witness :
    sortino_ratio [-1, -3] 0 =
      some (((qmean (([-1, -3] : List ℚ).map (fun r => r - 0)) : ℚ) : ℝ) /
        npStd (([-1, -3] : List ℚ).filter (fun r => r < 0)) * Real.sqrt 252) :=
  (sortino_ratio_downside_denominator [-1, -3] 0).2 (by
    have h : (([-1, -3] : List ℚ).filter (fun r => r < 0)) = [-1, -3] := by
      norm_num [List.filter]
    rw [h]
    exact List.cons_ne_nil _ _)

/-- C9: the spec claims `avg_drawdown` is the mean of only the negative
excursions of the drawdown curve.  The code takes `drawdowns.mean()` over
all periods: on returns `[1, -0.5]` the curve is `[0, -0.5]`, the code
reports -0.25, while the mean of the negative excursions is -0.5. -/
theorem analyze_drawdowns_avg_counterexample :
    (analyze_drawdowns [1, -1/2]).avg_drawdown = some (-1/4) ∧
    npMean ((drawdown_curve [1, -1/2]).filter (fun d => d < 0)) =
      some (-1/2) ∧
    ((-1/4 : ℚ) ≠ -1/2) := by
  have hdc : drawdown_curve [1, -1/2] = [0, -1/2] := by
    norm_num [drawdown_curve, cumulative_returns, rolling_max, List.scanl,
      List.zipWith, max_def]
  have havg : (analyze_drawdowns [1, -1/2]).avg_drawdown =
      npMean (drawdown_curve [1, -1/2]) := rfl
  refine ⟨?_, ?_, by norm_num⟩
  · rw [havg, hdc, npMean, if_neg (List.cons_ne_nil _ _)]
    norm_num
  · rw [hdc]
    have hf : ([0, -1/2] : List ℚ).filter (fun d => d < 0) = [-1/2] := by
      norm_num [List.filter]
    rw [hf, npMean, if_neg (List.cons_ne_nil _ _)]
    norm_num

/-- Each entry of the drawdown curve pairs a cumulative value with the
running maximum of a positive seed, so every entry is nonpositive. -/
theorem zip_scanl_nonpos (xs : List ℚ) :
    ∀ (x b : ℚ), x ≤ b → 0 < b →
      ∀ z ∈ List.zipWith (fun c m => (c - m) / m) (x :: xs)
          (List.scanl max b xs), z ≤ 0 := by
  induction xs with
  | nil =>
    intro x b hxb hb z hz
    simp only [List.scanl_nil, List.zipWith_cons_cons, List.zipWith_nil,
      List.mem_singleton] at hz
    subst hz
    rw [div_nonpos_iff]
    right
    constructor <;> linarith
  | cons y ys ih =>
    intro x b hxb hb z hz
    rw [List.scanl_cons, List.singleton_append, List.zipWith_cons_cons] at hz
    rcases List.mem_cons.1 hz with h | h
    · subst h
      rw [div_nonpos_iff]
      right
      constructor <;> linarith
    · exact ih y (max b y) (le_max_right b y)
        (lt_of_lt_of_le hb (le_max_left b y)) z h

/-- A uniform lower bound on a list bounds `length • bound` by the sum. -/
theorem list_mul_length_le_sum (l : List ℚ) (c : ℚ) (h : ∀ x ∈ l, c ≤ x) :
    c * l.length ≤ l.sum := by
  induction l with
  | nil => simp
  | cons a t ih =>
    have h1 := h a (List.mem_cons_self a t)
    have h2 := ih (fun x hx => h x (List.mem_cons_of_mem a hx))
    simp only [List.length_cons, List.sum_cons]
    push_cast
    nlinarith

/-- A list of nonpositive rationals has nonpositive sum. -/
theorem list_sum_nonpos (l : List ℚ) (h : ∀ x ∈ l, x ≤ 0) : l.sum ≤ 0 := by
  induction l with
  | nil => simp
  | cons a t ih =>
    have h1 := h a (List.mem_cons_self a t)
    have h2 := ih (fun x hx => h x (List.mem_cons_of_mem a hx))
    simp only [List.sum_cons]
    linarith

/-- `scanl` always emits its seed first. -/
theorem scanl_shape (f : ℚ → ℚ → ℚ) (b : ℚ) (l : List ℚ) :
    ∃ t, List.scanl f b l = b :: t := by
  cases l with
  | nil => exact ⟨[], rfl⟩
  | cons a l' => exact ⟨_, by rw [List.scanl_cons, List.singleton_append]⟩

/-- On a nonempty return series the drawdown machinery takes the
`zipWith`-against-running-max shape with seed `1 * (1 + r)`. -/
theorem drawdown_curve_shape (r : ℚ) (rs : List ℚ) :
    ∃ t, cumulative_returns (r :: rs) = (1 * (1 + r)) :: t ∧
      drawdown_curve (r :: rs) =
        List.zipWith (fun c m => (c - m) / m) ((1 * (1 + r)) :: t)
          (List.scanl max (1 * (1 + r)) t) := by
  have hc : cumulative_returns (r :: rs) =
      List.scanl (fun acc x => acc * (1 + x)) (1 * (1 + r)) rs := by
    simp [cumulative_returns, List.scanl_cons]
  obtain ⟨t, ht⟩ := scanl_shape (fun acc x => acc * (1 + x)) (1 * (1 + r)) rs
  refine ⟨t, by rw [hc, ht], ?_⟩
  rw [drawdown_curve, hc, ht]
  rfl

/-- Every point of the drawdown curve is nonpositive (cumulative value
never exceeds its running maximum, which stays positive). -/
theorem drawdown_curve_nonpos (returns : List ℚ)
    (hr : ∀ r ∈ returns, -1 < r) : ∀ z ∈ drawdown_curve returns, z ≤ 0 := by
  cases returns with
  | nil =>
    intro z hz
    simp [drawdown_curve, cumulative_returns, List.scanl] at hz
  | cons r rs =>
    obtain ⟨t, _, hdz⟩ := drawdown_curve_shape r rs
    intro z hz
    rw [hdz] at hz
    have hb : (0:ℚ) < 1 * (1 + r) := by
      have := hr r (List.mem_cons_self r rs)
      nlinarith
    exact zip_scanl_nonpos t (1 * (1 + r)) (1 * (1 + r)) le_rfl hb z hz

/-- C9 (amended): the drawdown curve is `(cumulative - running_max) /
running_max` of the running product of `(1 + r)`; `max_drawdown` is its
minimum (a lower bound of every curve point) and `avg_drawdown` is the
mean over ALL periods of the curve, zero-drawdown periods included, so
min ≤ avg ≤ 0. -/
theorem analyze_drawdowns_bounds (returns : List ℚ) (hne : returns ≠ [])
    (hr : ∀ r ∈ returns, -1 < r) :
    ∃ m a, analyze_drawdowns returns = ⟨some m, some a⟩ ∧ m ≤ a ∧ a ≤ 0 := by
  have hdne : drawdown_curve returns ≠ [] := by
    cases returns with
    | nil => exact absurd rfl hne
    | cons r rs =>
      obtain ⟨t, _, hdz⟩ := drawdown_curve_shape r rs
      rw [hdz]
      obtain ⟨t', ht'⟩ := scanl_shape max (1 * (1 + r)) t
      rw [ht', List.zipWith_cons_cons]
      exact List.cons_ne_nil _ _
  have hnonpos := drawdown_curve_nonpos returns hr
  obtain ⟨z0, hz0⟩ : ∃ z0, z0 ∈ drawdown_curve returns := by
    cases h : drawdown_curve returns with
    | nil => exact absurd h hdne
    | cons a l => exact ⟨a, h ▸ List.mem_cons_self a l⟩
  have hsome : (drawdown_curve returns).min?.isSome :=
    List.isSome_min?_of_mem hz0
  obtain ⟨m, hm⟩ := Option.isSome_iff_exists.1 hsome
  have hm2 := (@List.min?_eq_some_iff ℚ m _ _
    ⟨fun h1 h2 => le_antisymm h1 h2⟩ (fun a => le_refl a)
    (fun a b => min_choice a b) (fun a b c => le_min_iff)
    (drawdown_curve returns)).1 hm
  have hlenpos : 0 < (drawdown_curve returns).length :=
    List.length_pos.2 hdne
  have hlenposq : (0:ℚ) < ((drawdown_curve returns).length : ℚ) := by
    exact_mod_cast hlenpos
  refine ⟨m, (drawdown_curve returns).sum /
      ((drawdown_curve returns).length : ℚ), ?_, ?_, ?_⟩
  · show DrawdownStats.mk ((drawdown_curve returns).min?)
      (npMean (drawdown_curve returns)) = _
    rw [hm, npMean, if_neg hdne]
  · rw [le_div_iff₀ hlenposq]
    exact list_mul_length_le_sum _ m hm2.2
  · rw [div_nonpos_iff]
    right
    exact ⟨list_sum_nonpos _ hnonpos, hlenposq.le⟩

/-- C9 witness: on returns `[1, -0.5]` the reported max and average
drawdowns exist, with min ≤ avg ≤ 0. -/
theorem analyze_drawdowns_bounds_witness :
    ∃ m a, analyze_drawdowns [1, -1/2] = ⟨some m, some a⟩ ∧ m ≤ a ∧ a ≤ 0 :=
  analyze_drawdowns_bounds [1, -1/2] (List.cons_ne_nil _ _) (by
    intro r hrm
    simp at hrm
    rcases hrm with rfl | rfl <;> norm_num)

/-- C10: whenever `generate_pairs_signal` or
`generate_mean_reversion_signal` emits a signal (for a positive z-score
threshold), its confidence is exactly 1.0: a signal requires
`|zscore| > zscore_threshold`, so `min(|zscore| / zscore_threshold, 1.0)`
always saturates at the cap. -/
theorem signal_confidence_saturates :
    (∀ (pair : PairAnalysis) (zscore_threshold : ℚ) (s : TradingSignal),
      0 < zscore_threshold →
      generate_pairs_signal pair zscore_threshold = some s →
      s.confidence = 1) ∧
    (∀ (name : String) (prices : List ℚ) (lookback : ℕ)
        (zscore_threshold : ℚ) (s : TradingSignal),
      0 < zscore_threshold →
      generate_mean_reversion_signal name prices lookback zscore_threshold =
        some s → s.confidence = 1) := by
  constructor
  · intro pair t s ht hs
    unfold generate_pairs_signal at hs
    split at hs
    · rename_i hgt
      injection hs with h
      subst h
      show min (((|pair.zscore| : ℚ) : ℝ) / ((t : ℚ) : ℝ)) 1 = 1
      have htR : (0:ℝ) < ((t : ℚ) : ℝ) := by exact_mod_cast ht
      have hzR : ((t : ℚ) : ℝ) < ((|pair.zscore| : ℚ) : ℝ) := by
        exact_mod_cast hgt
      have h1 : (1:ℝ) ≤ ((|pair.zscore| : ℚ) : ℝ) / ((t : ℚ) : ℝ) := by
        rw [le_div_iff₀ htR]
        linarith
      exact min_eq_right h1
    · exact absurd hs (by simp)
  · intro name prices lookback t s ht hs
    unfold generate_mean_reversion_signal at hs
    split at hs
    · exact absurd hs (by simp)
    · split at hs
      · rename_i hgt
        injection hs with h
        subst h
        show min (|rolling_zscore_last prices lookback| / ((t : ℚ) : ℝ)) 1 = 1
        have htR : (0:ℝ) < ((t : ℚ) : ℝ) := by exact_mod_cast ht
        have h1 : (1:ℝ) ≤ |rolling_zscore_last prices lookback| /
            ((t : ℚ) : ℝ) := by
          rw [le_div_iff₀ htR]
          linarith [hgt]
        exact min_eq_right h1
      · exact absurd hs (by simp)

/-- C10 witness: a pairs signal at z-score 3 with threshold 2, and a
mean-reversion signal on prices `[0, 0, 0, 4]` (last z-score 1.5) with
threshold 1, both carry confidence exactly 1. -/
theorem signal_confidence_saturates_witness :
    (∃ s, generate_pairs_signal ⟨"A", "B", 1, 3⟩ 2 = some s ∧
      s.confidence = 1) ∧
    (∃ s, generate_mean_reversion_signal "X" [0, 0, 0, 4] 4 1 = some s ∧
      s.confidence = 1) := by
  have hz : rolling_zscore_last [0, 0, 0, 4] 4 = 3/2 := by
    rw [rolling_zscore_last]
    have h1 : (([0, 0, 0, 4] : List ℚ).getLast?.getD 0 -
        qmean (lastN 4 [0, 0, 0, 4])) = 3 := by
      norm_num [lastN, qmean, List.getLast?]
    have h2 : sampleVariance (lastN 4 [0, 0, 0, 4]) = 4 := by
      norm_num [lastN, sampleVariance, qmean]
    rw [h1, h2]
    rw [show ((4:ℚ):ℝ) = (2:ℝ)^2 by norm_num, Real.sqrt_sq (by norm_num)]
    norm_num
  constructor
  · cases hEq : generate_pairs_signal ⟨"A", "B", 1, 3⟩ 2 with
    | none =>
      exfalso
      rw [generate_pairs_signal, if_pos (by norm_num)] at hEq
      exact Option.noConfusion hEq
    | some s =>
      exact ⟨s, rfl, signal_confidence_saturates.1 _ 2 s (by norm_num) hEq⟩
  · cases hEq : generate_mean_reversion_signal "X" [0, 0, 0, 4] 4 1 with
    | none =>
      exfalso
      rw [generate_mean_reversion_signal, if_neg (by norm_num),
        if_pos (by
          rw [hz, show |(3/2 : ℝ)| = 3/2 from abs_of_pos (by norm_num)]
          norm_num)] at hEq
      exact Option.noConfusion hEq
    | some s =>
      exact ⟨s, rfl,
        signal_confidence_saturates.2 "X" [0, 0, 0, 4] 4 1 s (by norm_num) hEq⟩

end Don
